import Mathlib

/-!
Verification of the compyute-transformer repository: a shallow embedding of
the decoder-only transformer modules found in
`src/experiments/transformer.py` (the "plain" variant, closure-based
backward) and `src/experiments/transformer_s.py` (the "s" variant with an
explicit function cache), together with theorems settling the frozen claims
about them.

Scalars of the numeric claims are modelled as real numbers (the code works
with floating-point tensors; exact real arithmetic is the mathematical
reading of its formulas).  The additive attention masks contain negative
infinity, modelled by `WithBot ℝ` with `exp ⊥ = 0`.  External collaborators
of the repository (the compyute tensor/autograd library: softmax, dropout,
linear layers, parameter-gradient accumulation) are modelled from the
spec's description of their contract; such definitions say so in their doc
comment.
-/

namespace CompyuteTransformer

/-! Section: Untyped tensors (rational leaves)

Used for the gradient-routing claims, where only elementwise addition and
summation over the leading axis matter.  `cons`/`nil` encode an array's
list of sub-arrays. -/

/-- Untyped tensor tree: a leaf scalar, or a (possibly empty) list of
sub-tensors encoded with nil/cons. -/
inductive UT where
  | leaf : ℚ → UT
  | nil : UT
  | cons : UT → UT → UT
deriving DecidableEq

/-- Elementwise addition of two untyped tensors of the same shape
(on mismatched shapes the first argument is kept, a case that does not
arise in well-shaped use). -/
def utAdd : UT → UT → UT
  | .leaf a, .leaf b => .leaf (a + b)
  | .cons a as, .cons b bs => .cons (utAdd a b) (utAdd as bs)
  | .nil, .nil => .nil
  | x, _ => x

/-- Left fold of `utAdd` over the encoded list of sub-tensors. -/
def utFoldAdd : UT → UT → UT
  | acc, .cons c rest => utFoldAdd (utAdd acc c) rest
  | acc, _ => acc

/-- Sum of a tensor over its leading axis, modelling `dy.sum(axis=0)`:
the elementwise sum of all slices along axis 0. -/
def sumAxis0 : UT → UT
  | .cons c rest => utFoldAdd c rest
  | t => t

/-! Section: Top-level Transformer backward: embedding-gradient routing

`transformer_s.py`, `Transformer.backward` (lines 134-140):
  dy = self.ln.backward(self.lm_head.backward(dy))
  for module in reversed(self.blocks): dy = module.backward(dy)
  self.token_emb.backward(dy)
  self.pos_emb.backward(dy.sum(axis=0))

`transformer.py`, `Transformer.forward._backward` (lines 121-127):
  dy = self.ln.backward(self.lm_head.backward(dy))
  for module in reversed(self.blocks): dy = module.backward(dy)
  self.token_emb.backward(dy)
  self.pos_emb.backward(dy)

The external sub-module backwards (lm_head, ln, per-block) are parameters;
the pair returned is (argument passed to token_emb.backward, argument
passed to pos_emb.backward). -/

/-- Gradient arguments handed to the token and positional embeddings by the
s-variant top-level backward (transformer_s.py lines 134-140). -/
def transformerS_embArgs (lmHeadB lnB : UT → UT) (blocksB : List (UT → UT))
    (dy : UT) : UT × UT :=
  let dyBlocks := (blocksB.reverse).foldl (fun a f => f a) (lnB (lmHeadB dy))
  (dyBlocks, sumAxis0 dyBlocks)

/-- Gradient arguments handed to the token and positional embeddings by the
plain-variant top-level backward (transformer.py lines 121-127): the
positional embedding receives the unsummed gradient. -/
def transformerPlain_embArgs (lmHeadB lnB : UT → UT) (blocksB : List (UT → UT))
    (dy : UT) : UT × UT :=
  let dyBlocks := (blocksB.reverse).foldl (fun a f => f a) (lnB (lmHeadB dy))
  (dyBlocks, dyBlocks)

/-! Section: Multi-head attention construction (claim C8) and attn_w list (claim C10)

`transformer_s.py`, `MultiHeadAttention.__init__` (lines 300-324): the Python
expression `in_channels % n_heads` raises ZeroDivisionError when
`n_heads == 0`; otherwise a nonzero remainder raises ValueError; otherwise
the module is constructed with an empty `attn_w` list (line 317). -/

/-- Minimal observable state of the MultiHeadAttention module for the
construction and frame-effect claims: head count and the `attn_w` list of
optional per-head attention-weight tensors (of abstract type `W`). -/
structure MHAModule (W : Type) where
  n_heads : ℕ
  in_channels : ℕ
  attn_w : List (Option W)
deriving DecidableEq

/-- Construction of MultiHeadAttention, modelling transformer_s.py lines
310-317 with Python integer-modulo semantics: `in_channels % n_heads`
raises ZeroDivisionError for `n_heads = 0`, a nonzero remainder raises the
ValueError of line 311, and otherwise the module is produced whole, with
`attn_w = []`. -/
def MultiHeadAttention_init (W : Type) (in_channels n_heads : ℕ) :
    Except String (MHAModule W) :=
  if n_heads = 0 then
    .error "ZeroDivisionError: integer modulo by zero"
  else if in_channels % n_heads ≠ 0 then
    .error "Number of input channels must be divisible by n_heads."
  else
    .ok ⟨n_heads, in_channels, []⟩

/-- Boolean success observer for an `Except`-valued construction. -/
def exceptOk {ε α : Type} : Except ε α → Bool
  | .ok _ => true
  | .error _ => false

/-- Effect of one `MultiHeadAttention.forward` call (transformer_s.py lines
326-358) on the `attn_w` list: the loop over the `n_heads` split head
projections appends, per head, the attention weights when value retention
is enabled and `None` otherwise; nothing else of the list is touched.
`headVals` are the per-head attention-weight tensors of this call. -/
def mhaForwardAttnW {W : Type} (m : MHAModule W) (retaining : Bool)
    (headVals : List W) : MHAModule W :=
  ⟨m.n_heads, m.in_channels,
    m.attn_w ++ headVals.map (fun w => if retaining then some w else none)⟩

/-- Effect of `MultiHeadAttention.backward` (transformer_s.py lines 360-387)
on the module state observed here: the method reads the function cache and
the projection modules but never mentions `attn_w`, so the list is
unchanged. -/
def mhaBackwardAttnW {W : Type} (m : MHAModule W) : MHAModule W :=
  ⟨m.n_heads, m.in_channels, m.attn_w⟩

/-- Iterate `k` forward calls, the `i`-th one producing the per-head
attention weights `vals i`. -/
def mhaForwardIter {W : Type} (m : MHAModule W) (retaining : Bool)
    (vals : ℕ → List W) : ℕ → MHAModule W
  | 0 => m
  | k + 1 => mhaForwardAttnW (mhaForwardIter m retaining vals k) retaining (vals k)

/-! Section: Weight tying (claim C5)

`transformer_s.py` lines 101 and 119-122 (and identically transformer.py
lines 97, 108-109): the token embedding allocates its weight parameter, the
language-model head allocates its own, and then
`self.lm_head.w = self.token_emb.w` rebinds the head's weight to the very
same stored tensor.  Parameters are modelled as storage identifiers into a
gradient heap `ℕ → G`. -/

/-- Storage identifiers of the three top-level weight matrices after
`Transformer.__init__`: ids are allocated in construction order and the
final assignment `self.lm_head.w = self.token_emb.w` (transformer_s.py line
122) rebinds the head's id to the token embedding's id. -/
structure TfParams where
  tokenEmbW : ℕ
  posEmbW : ℕ
  lmHeadW : ℕ
deriving DecidableEq

/-- Construction of the top-level Transformer's parameter bindings:
token embedding weight at id 0, positional embedding weight at id 1, the
head's freshly allocated weight at id 2 immediately rebound to the token
embedding's storage. -/
def mkTransformerParams : TfParams :=
  let tokenW := 0
  let posW := 1
  let lmW := 2
  let lmW := tokenW
  ⟨tokenW, posW, lmW⟩

/-- Modelled from the spec: parameter-gradient accumulation of the external
compyute library ("gradient contributions from both consumers must
accumulate onto one buffer, not be treated as independent") — a backward
call adds its contribution onto the parameter's gradient buffer. -/
def accumGrad {G : Type} [AddCommMonoid G] (grads : ℕ → G) (i : ℕ) (g : G) :
    ℕ → G :=
  fun j => if j = i then grads j + g else grads j

/-- Gradient heap after the top-level backward pass (transformer_s.py lines
134-140): `lm_head.backward` accumulates its weight-gradient contribution
on `lmHeadW`, later `token_emb.backward` accumulates the embedding-lookup
contribution on `tokenEmbW`, and `pos_emb.backward` accumulates on
`posEmbW`. -/
def transformerBackwardGrads {G : Type} [AddCommMonoid G] (ps : TfParams)
    (grads : ℕ → G) (headContrib tokenContrib posContrib : G) : ℕ → G :=
  let g1 := accumGrad grads ps.lmHeadW headContrib
  let g2 := accumGrad g1 ps.tokenEmbW tokenContrib
  accumGrad g2 ps.posEmbW posContrib

/-! Section: Transformer block (claim C7)

`transformer_s.py` lines 191-201.  The sub-modules (layer norms, attention,
feed-forward and the two dropouts — external or separately specified) enter
as plain functions. -/

/-- Forward of TransformerBlock (transformer_s.py lines 191-195):
`x = x + self.dropout_1(self.attn(self.ln_1(x)))` followed by
`x = x + self.dropout_2(self.ffwd(self.ln_2(x)))`. -/
def TransformerBlock_forward {α : Type} [Add α]
    (ln1F attnF drop1F ln2F ffwdF drop2F : α → α) (x : α) : α :=
  let x1 := x + drop1F (attnF (ln1F x))
  let x2 := x1 + drop2F (ffwdF (ln2F x1))
  x2

/-- Backward of TransformerBlock (transformer_s.py lines 197-201):
`dy = dy + self.ln_2.backward(self.ffwd.backward(self.dropout_2.backward(dy)))`
then the same pattern through the attention sub-block. -/
def TransformerBlock_backward {α : Type} [Add α]
    (drop1B attnB ln1B drop2B ffwdB ln2B : α → α) (dy : α) : α :=
  let g2 := dy + ln2B (ffwdB (drop2B dy))
  let g1 := g2 + ln1B (attnB (drop1B g2))
  g1

/-! Section: Scaled dot-product attention (claims C1, C2, C3, C4)

Real-valued model of `FSDPAttention` (transformer_s.py lines 390-430) and
the identical `scaled_dot_product_attention` of transformer.py (lines
433-497).  A tensor slice of shape (S, D) is a function matrix; the batch
axis, along which every operation acts elementwise, is an outer `Fin B`
index where a claim mentions it. -/

noncomputable section

/-- Matrices with `S` rows and `D` columns of real entries. -/
abbrev RMat (S D : ℕ) := Fin S → Fin D → ℝ

/-- Dot product of two length-`D` rows, the entry of `q @ k.T`. -/
def dotRow {D : ℕ} (a b : Fin D → ℝ) : ℝ := ∑ d, a d * b d

/-- Raw attention scores `q @ k.T / math.sqrt(head_size)`
(transformer_s.py line 405). -/
def rawScores {S D : ℕ} (q k : RMat S D) : Fin S → Fin S → ℝ :=
  fun i j => dotRow (q i) (k j) / Real.sqrt D

/-- Addition of the optional additive mask onto the scores, truncated to
the leading `S × S` submatrix: `attn_w += mask[:seq_len, :seq_len]`
(transformer_s.py line 407, transformer.py line 473).  Mask entries live in
`WithBot ℝ`, with `⊥` standing for float negative infinity. -/
def addMaskOpt {S M : ℕ} (s : Fin S → Fin S → ℝ)
    (mask : Option (Fin M → Fin M → WithBot ℝ)) (hSM : S ≤ M) :
    Fin S → Fin S → WithBot ℝ :=
  match mask with
  | none => fun i j => (s i j : WithBot ℝ)
  | some m => fun i j => (s i j : WithBot ℝ) + m (Fin.castLE hSM i) (Fin.castLE hSM j)

/-- Exponential extended to scores containing negative infinity:
`exp ⊥ = 0`, matching the floating-point evaluation `exp(-inf) = 0`. -/
def bexp (x : WithBot ℝ) : ℝ := WithBot.recBotCoe 0 Real.exp x

/-- Modelled from the spec: the external `FSoftmax.forward` of the compyute
library, "apply softmax along the key axis to get attention weights" — each
row (query index `i`) is normalized over the key index `j`.  The spec's
max-subtraction is a numerically equivalent evaluation of the same
function. -/
def softmaxKeyAxis {S : ℕ} (s : Fin S → Fin S → WithBot ℝ) :
    Fin S → Fin S → ℝ :=
  fun i j => bexp (s i j) / ∑ j', bexp (s i j')

/-- Modelled from the spec: the external `FDropout.forward` of the compyute
library, applied "independently per element, scaling kept elements by
`1/(1-dropout_p)`"; the boolean `keep` field records which elements the
random draw keeps, and `active` is the flag the call site passes
(`dropout_p > 0`, transformer_s.py line 409). -/
def dropoutF {S : ℕ} (p : ℚ) (active : Bool) (keep : Fin S → Fin S → Bool)
    (w : Fin S → Fin S → ℝ) : Fin S → Fin S → ℝ :=
  if active then
    (fun i j => if keep i j then w i j / (1 - (p : ℝ)) else 0)
  else w

/-- Matrix product of attention weights with the value slice,
`y = attn_w @ v` (transformer_s.py line 410). -/
def matmulWV {S D : ℕ} (w : Fin S → Fin S → ℝ) (v : RMat S D) : RMat S D :=
  fun i d => ∑ j, w i j * v j d

/-- Function cache of one FSDPAttention forward call (transformer_s.py line
412 plus the sub-caches of FSoftmax and FDropout): q, k, v, the softmax
output, the dropout parameters, and the post-dropout attention weights. -/
structure AttnCache (S D : ℕ) where
  q : RMat S D
  k : RMat S D
  v : RMat S D
  smOut : Fin S → Fin S → ℝ
  p : ℚ
  keep : Fin S → Fin S → Bool
  attn_w : Fin S → Fin S → ℝ

/-- Forward of `FSDPAttention` (transformer_s.py lines 393-413): scaled
scores, mask addition truncated to the current sequence length, softmax
along the key axis, dropout with active flag `dropout_p > 0`, and the
product with `v`; returns the output together with the populated cache. -/
def FSDPAttention_forward {S D M : ℕ} (q k v : RMat S D)
    (mask : Option (Fin M → Fin M → WithBot ℝ)) (hSM : S ≤ M) (p : ℚ)
    (keep : Fin S → Fin S → Bool) : RMat S D × AttnCache S D :=
  let scores := addMaskOpt (rawScores q k) mask hSM
  let w_sm := softmaxKeyAxis scores
  let attn_w := dropoutF p (decide (0 < p)) keep w_sm
  let y := matmulWV attn_w v
  (y, ⟨q, k, v, w_sm, p, keep, attn_w⟩)

/-- Modelled from the spec: the external `FDropout.backward`, which "undoes
dropout scaling" — the incoming gradient is scaled by the same kept-element
mask and factor as the forward pass. -/
def dropoutBackward {S : ℕ} (p : ℚ) (active : Bool)
    (keep : Fin S → Fin S → Bool) (dy : Fin S → Fin S → ℝ) :
    Fin S → Fin S → ℝ :=
  if active then
    (fun i j => if keep i j then dy i j / (1 - (p : ℝ)) else 0)
  else dy

/-- Modelled from the spec: the external `FSoftmax.backward`, the "full
Jacobian-vector product, not elementwise" of softmax with cached output
`y`: `ds i j = y i j * (da i j - ∑ j', da i j' * y i j')`. -/
def softmaxBackward {S : ℕ} (y da : Fin S → Fin S → ℝ) :
    Fin S → Fin S → ℝ :=
  fun i j => y i j * (da i j - ∑ j', da i j' * y i j')

/-- Backward of `FSDPAttention` (transformer_s.py lines 415-430):
`dattn_w = dy @ v.T`, dropout backward, softmax backward divided by
`math.sqrt(head_size)`, then `dq = dattn_w @ k`, `dk = dattn_w.T @ q`,
`dv = attn_w.T @ dy`. -/
def FSDPAttention_backward {S D : ℕ} (c : AttnCache S D) (dy : RMat S D) :
    RMat S D × RMat S D × RMat S D :=
  let dattn1 : Fin S → Fin S → ℝ := fun i j => ∑ d, dy i d * c.v j d
  let dattn2 := dropoutBackward c.p (decide (0 < c.p)) c.keep dattn1
  let dattn3 : Fin S → Fin S → ℝ :=
    fun i j => softmaxBackward c.smOut dattn2 i j / Real.sqrt D
  let dq : RMat S D := fun i d => ∑ j, dattn3 i j * c.k j d
  let dk : RMat S D := fun j d => ∑ i, dattn3 i j * c.q i d
  let dv : RMat S D := fun j d => ∑ i, c.attn_w i j * dy i d
  (dq, dk, dv)

/-- Per-head forward as invoked by `MultiHeadAttention.forward`
(transformer_s.py lines 329 and 343-352): the module passes
`dropout_p = self.dropout_p if self._is_training else 0` down to the
attention function. -/
def mhaHeadForward {S D M : ℕ} (training : Bool) (q k v : RMat S D)
    (mask : Option (Fin M → Fin M → WithBot ℝ)) (hSM : S ≤ M) (p : ℚ)
    (keep : Fin S → Fin S → Bool) : RMat S D :=
  (FSDPAttention_forward q k v mask hSM (if training then p else 0) keep).1

/-- Claim C1's formula, written from the spec's words: attention weights
are `softmax((q @ k.T) / sqrt(head_size) + mask')` with `mask'` the leading
`S × S` submatrix of the mask, dropout is applied to the attention weights
exactly when `training` and `dropout_p > 0` (keeping elements scaled by
`1/(1-dropout_p)`), and the output is the weights times `v`. -/
def specAttention {S D M : ℕ} (training : Bool) (q k v : RMat S D)
    (mask : Option (Fin M → Fin M → WithBot ℝ)) (hSM : S ≤ M) (p : ℚ)
    (keep : Fin S → Fin S → Bool) : RMat S D :=
  let w := softmaxKeyAxis (addMaskOpt (rawScores q k) mask hSM)
  let w' :=
    if training ∧ 0 < p then
      (fun i j => if keep i j then w i j / (1 - (p : ℝ)) else 0)
    else w
  matmulWV w' v

/-- Claim C2's formula, written from the spec's words: `d_attn_weights =
d_output @ v.T`; undo dropout; apply the full softmax Jacobian-vector
product and rescale by `1/sqrt(head_size)` to get `d_scores`; then
`d_q = d_scores @ k`, `d_k = d_scores.T @ q`,
`d_v = attention_weights.T @ d_output`. -/
def specAttnBackward {S D : ℕ} (c : AttnCache S D) (dy : RMat S D) :
    RMat S D × RMat S D × RMat S D :=
  let dattn : Fin S → Fin S → ℝ := fun i j => ∑ d, dy i d * c.v j d
  let dattnU := dropoutBackward c.p (decide (0 < c.p)) c.keep dattn
  let dscores : Fin S → Fin S → ℝ :=
    fun i j => (Real.sqrt D)⁻¹ * softmaxBackward c.smOut dattnU i j
  (fun i d => ∑ j, dscores i j * c.k j d,
   fun j d => ∑ i, dscores i j * c.q i d,
   fun j d => ∑ i, c.attn_w i j * dy i d)

/-- Causal mask `triu(full(shape, -inf), d=1)` of `get_causal_mask`
(transformer_s.py lines 25-38): negative infinity strictly above the
diagonal, zero on and below it. -/
def getCausalMask (M : ℕ) : Fin M → Fin M → WithBot ℝ :=
  fun i j => if (i : ℕ) + 1 ≤ (j : ℕ) then ⊥ else 0

/-- Batched per-head attention forward: the batch axis is elementwise, with
an independent dropout draw per batch element. -/
def mhaHeadForwardBatch {B S D M : ℕ} (training : Bool)
    (q k v : Fin B → RMat S D) (mask : Option (Fin M → Fin M → WithBot ℝ))
    (hSM : S ≤ M) (p : ℚ) (keep : Fin B → Fin S → Fin S → Bool) :
    Fin B → RMat S D :=
  fun b => mhaHeadForward training (q b) (k b) (v b) mask hSM p (keep b)

/-- Batched version of claim C1's formula. -/
def specAttentionBatch {B S D M : ℕ} (training : Bool)
    (q k v : Fin B → RMat S D) (mask : Option (Fin M → Fin M → WithBot ℝ))
    (hSM : S ≤ M) (p : ℚ) (keep : Fin B → Fin S → Fin S → Bool) :
    Fin B → RMat S D :=
  fun b => specAttention training (q b) (k b) (v b) mask hSM p (keep b)

/-! Section: Multi-head attention backward (claim C3)

`transformer_s.py` lines 360-387.  The channel axis of size `H * hd` is
split into `H` contiguous head chunks of size `hd`; the per-head function
caches were pushed onto the shared `FunctionCache` in forward head order,
so the backward loop `for dy_head in reversed(dy_heads)` pops them last-in
first-out.  The external Linear projections enter as plain functions. -/

/-- `split(m, H)` along the channel axis: the list of `H` contiguous chunks
of `hd` columns each, in head order. -/
def splitHeads {S : ℕ} (H hd : ℕ) (m : RMat S (H * hd)) : List (RMat S hd) :=
  (List.finRange H).map
    (fun (hIdx : Fin H) => fun s (d : Fin hd) =>
      m s ⟨(hIdx : ℕ) * hd + (d : ℕ), by
        calc (hIdx : ℕ) * hd + (d : ℕ) < (hIdx : ℕ) * hd + hd :=
              Nat.add_lt_add_left d.isLt _
          _ = ((hIdx : ℕ) + 1) * hd := by ring
          _ ≤ H * hd := Nat.mul_le_mul_right hd hIdx.isLt⟩)

/-- `concat(l)` along the channel axis: column `j` of the result is column
`j % hd` of chunk `j / hd`. -/
def concatHeads {S : ℕ} (H hd : ℕ) (l : List (RMat S hd)) : RMat S (H * hd) :=
  fun s j => l.getD ((j : ℕ) / hd) (fun _ _ => 0) s ⟨(j : ℕ) % hd, by
    rcases Nat.eq_zero_or_pos hd with h0 | h0
    · exact absurd j.isLt (by simp [h0])
    · exact Nat.mod_lt _ h0⟩

/-- Backward of `MultiHeadAttention` (transformer_s.py lines 360-387):
output-projection backward, split of the gradient into heads, the loop over
`reversed(dy_heads)` consuming the cache stack last-in first-out, the
re-concatenations `concat(dq_heads[::-1])` (and likewise dk, dv) restoring
original head order, the three input-projection backwards, and their sum
`dx1 + dx2 + dx3`. -/
def MultiHeadAttention_backward {S C : ℕ} (H hd : ℕ)
    (outB : RMat S C → RMat S (H * hd))
    (qB kB vB : RMat S (H * hd) → RMat S C)
    (caches : List (AttnCache S hd)) (dy : RMat S C) : RMat S C :=
  let dy_heads := splitHeads H hd (outB dy)
  let trips := (dy_heads.reverse.zip caches.reverse).map
    (fun pc => FSDPAttention_backward pc.2 pc.1)
  let dq := concatHeads H hd ((trips.map (fun t => t.1)).reverse)
  let dk := concatHeads H hd ((trips.map (fun t => t.2.1)).reverse)
  let dv := concatHeads H hd ((trips.map (fun t => t.2.2)).reverse)
  qB dq + kB dk + vB dv

/-- Claim C3's formula, written from the spec's words: the net effect of
the mirror backward — head `i`'s cached backward is applied to the `i`-th
chunk of the output gradient, per-head gradients are concatenated in
original head order, and the input gradient is the sum of the three
input-projection backward results. -/
def MultiHeadAttention_backward_spec {S C : ℕ} (H hd : ℕ)
    (outB : RMat S C → RMat S (H * hd))
    (qB kB vB : RMat S (H * hd) → RMat S C)
    (caches : List (AttnCache S hd)) (dy : RMat S C) : RMat S C :=
  let dy_heads := splitHeads H hd (outB dy)
  let trips := (dy_heads.zip caches).map
    (fun pc => FSDPAttention_backward pc.2 pc.1)
  qB (concatHeads H hd (trips.map (fun t => t.1)))
    + kB (concatHeads H hd (trips.map (fun t => t.2.1)))
    + vB (concatHeads H hd (trips.map (fun t => t.2.2)))

/-! Section: Sinusoidal positional encoding (claim C9)

`transformer_s.py` lines 509-537. -/

/-- The `div_term` row (transformer_s.py lines 524-525): entry `i` is
`exp(2*i * (-(log base / embedding_dim)))`. -/
def peDivTerm (E : ℕ) (base : ℝ) (i : ℕ) : ℝ :=
  Real.exp ((2 * i : ℕ) * (-(Real.log base / E)))

/-- The precomputed encoding table (transformer_s.py lines 522-527): even
columns `encodings[:, 0::2] = sin(positions * div_term)`, odd columns
`encodings[:, 1::2] = cos(positions * div_term)`; the table has shape
`(max_seq_len, embedding_dim)` and is stored as a non-trainable Buffer. -/
def peEncodings (L E : ℕ) (base : ℝ) : Fin L → Fin E → ℝ :=
  fun p j =>
    if (j : ℕ) % 2 = 0 then Real.sin ((p : ℕ) * peDivTerm E base ((j : ℕ) / 2))
    else Real.cos ((p : ℕ) * peDivTerm E base ((j : ℕ) / 2))

/-- Forward of `PositionalEncoding` (transformer_s.py lines 531-533):
`return self.encodings[: x.shape[1]]`, the leading slice of the table
matching the current sequence length `Sq`. -/
def peForward (L E : ℕ) (base : ℝ) (Sq : ℕ) (hS : Sq ≤ L) :
    Fin Sq → Fin E → ℝ :=
  fun s j => peEncodings L E base (Fin.castLE hS s) j

/-- Backward of `PositionalEncoding` (transformer_s.py lines 535-537):
`return dy` — the gradient passes through unchanged and none of it is
written into the fixed table. -/
def peBackward {A : Type} (dy : A) : A := dy

/-- Concrete one-head function cache used as a sample input. -/
def sampleAttnCache : AttnCache 1 1 :=
  ⟨fun _ _ => 1, fun _ _ => 2, fun _ _ => 3, fun _ _ => 1, 0,
    fun _ _ => true, fun _ _ => 1⟩

end

/-! Section: theorems settling the claims -/

@[simp] theorem bexp_bot : bexp (⊥ : WithBot ℝ) = 0 := rfl

@[simp] theorem bexp_coe (x : ℝ) : bexp (x : WithBot ℝ) = Real.exp x := rfl

/-- C8 (counterexample): at `in_channels = 0`, `n_heads = 0` the claim
fails — `0` is divisible by `0`, yet construction does not complete: the
Python check `in_channels % n_heads != 0` raises a division error, so the
constructor fails although the claim promises success for every divisible
configuration. -/
theorem c8_counterexample :
    exceptOk (MultiHeadAttention_init Unit 0 0) = false ∧ (0 : ℕ) ∣ 0 :=
  ⟨rfl, ⟨0, rfl⟩⟩

/-- C8 (amended): construction fails iff `n_heads = 0` (the divisibility
check itself raises a division error) or `in_channels` is not divisible by
`n_heads`; on failure no module is produced (the error branch carries
none), and on success the module is whole, with the given head count and
channel count and an empty `attn_w` list. -/
theorem c8_mha_init_ok_iff (W : Type) (c h : ℕ) :
    (exceptOk (MultiHeadAttention_init W c h) = true ↔ 0 < h ∧ h ∣ c) ∧
    (∀ m, MultiHeadAttention_init W c h = .ok m →
      m.n_heads = h ∧ m.in_channels = c ∧ m.attn_w = []) := by
  constructor
  · rcases Nat.eq_zero_or_pos h with h0 | h0
    · subst h0
      simp [MultiHeadAttention_init, exceptOk]
    · have hne : h ≠ 0 := Nat.pos_iff_ne_zero.mp h0
      by_cases hm : c % h = 0
      · have hdvd : h ∣ c := Nat.dvd_of_mod_eq_zero hm
        simp [MultiHeadAttention_init, exceptOk, hne, hm, h0, hdvd]
      · have hndvd : ¬ h ∣ c := fun hd => hm (Nat.mod_eq_zero_of_dvd hd)
        simp [MultiHeadAttention_init, exceptOk, hne, hm, hndvd]
  · intro m hm
    revert hm
    unfold MultiHeadAttention_init
    by_cases h0 : h = 0
    · simp [h0]
    · by_cases hm2 : c % h ≠ 0
      · simp [h0, hm2]
      · simp only [h0, hm2, if_false, if_neg]
        intro hok
        cases hok
        exact ⟨rfl, rfl, rfl⟩

/-- C10: one forward call of the s-variant MultiHeadAttention appends
exactly `n_heads` entries to `attn_w` (all `none` unless value retention is
on), the existing entries are untouched (the old list is the leading
segment of the new one), backward leaves the list unchanged, and `k`
repeated forward calls grow the list by `k * n_heads` entries — without
bound. -/
theorem c10_attn_w_growth {W : Type} (m : MHAModule W) (r : Bool)
    (headVals : List W) (hlen : headVals.length = m.n_heads)
    (vals : ℕ → List W) (hv : ∀ i, (vals i).length = m.n_heads) :
    (mhaForwardAttnW m r headVals).attn_w.length = m.attn_w.length + m.n_heads ∧
    (mhaForwardAttnW m r headVals).attn_w.take m.attn_w.length = m.attn_w ∧
    (r = false →
      ∀ o ∈ (mhaForwardAttnW m r headVals).attn_w.drop m.attn_w.length, o = none) ∧
    (mhaBackwardAttnW m).attn_w = m.attn_w ∧
    (∀ k, (mhaForwardIter m r vals k).attn_w.length
        = m.attn_w.length + k * m.n_heads) := by
  refine ⟨?_, ?_, ?_, rfl, ?_⟩
  · simp [mhaForwardAttnW, hlen]
  · exact List.take_left _ _
  · intro hr o ho
    rw [mhaForwardAttnW, List.drop_left] at ho
    rcases List.mem_map.mp ho with ⟨w, _, hw⟩
    rw [hr] at hw
    simpa using hw.symm
  · intro k
    induction k with
    | zero => simp [mhaForwardIter]
    | succ k ih =>
      have hn : (mhaForwardIter m r vals k).n_heads = m.n_heads := by
        clear ih
        induction k with
        | zero => rfl
        | succ k ih2 => simpa [mhaForwardIter, mhaForwardAttnW] using ih2
      simp [mhaForwardIter, mhaForwardAttnW, ih, hv k, Nat.succ_mul]
      omega

/-- C10 (witness): the theorem at two heads with empty initial list; after
three forward calls the list holds six entries. -/
theorem c10_attn_w_growth_witness :
    (mhaForwardIter (W := ℕ) ⟨2, 4, []⟩ false (fun _ => [5, 7]) 3).attn_w.length = 6 :=
  (c10_attn_w_growth ⟨2, 4, []⟩ false [5, 7] rfl (fun _ => [5, 7]) (fun _ => rfl)).2.2.2.2 3

/-- C5: after construction of the top-level Transformer the language-model
head's weight and the token-embedding weight are bound to the same storage,
and the backward pass accumulates both the head matrix-multiply
contribution and the embedding-lookup contribution additively onto that one
storage (the positional embedding's separate storage is unaffected). -/
theorem c5_weight_tying (G : Type) [AddCommMonoid G] (grads : ℕ → G)
    (headContrib tokenContrib posContrib : G) :
    mkTransformerParams.lmHeadW = mkTransformerParams.tokenEmbW ∧
    transformerBackwardGrads mkTransformerParams grads headContrib tokenContrib
        posContrib mkTransformerParams.tokenEmbW
      = grads mkTransformerParams.tokenEmbW + headContrib + tokenContrib := by
  refine ⟨rfl, ?_⟩
  simp [transformerBackwardGrads, accumGrad, mkTransformerParams]

/-- C6 (counterexample): in the plain-variant top-level backward
(transformer.py lines 121-127) the positional embedding does not receive
the batch-summed gradient: with identity head/norm backwards, no blocks,
and the block-stack gradient `[[1], [2]]` (batch 2, sequence 1, embedding
1), the argument passed to `pos_emb.backward` is the unsummed `[[1], [2]]`,
not the batch sum `[3]`. -/
theorem c6_counterexample :
    (transformerPlain_embArgs id id []
        (UT.cons (UT.cons (UT.leaf 1) UT.nil)
          (UT.cons (UT.cons (UT.leaf 2) UT.nil) UT.nil))).2
      ≠ sumAxis0 ((transformerPlain_embArgs id id []
        (UT.cons (UT.cons (UT.leaf 1) UT.nil)
          (UT.cons (UT.cons (UT.leaf 2) UT.nil) UT.nil))).1) := by
  decide

/-- C6 (amended): in the s-variant top-level backward the positional
embedding receives the block-stack input gradient summed over the batch
axis while the token embedding receives it unsummed; the plain variant
(transformer.py) instead passes the unsummed block-stack gradient to both
embeddings. -/
theorem c6_posemb_grad (lmHeadB lnB : UT → UT) (blocksB : List (UT → UT))
    (dy : UT) :
    (transformerS_embArgs lmHeadB lnB blocksB dy).2
        = sumAxis0 (transformerS_embArgs lmHeadB lnB blocksB dy).1 ∧
    (transformerS_embArgs lmHeadB lnB blocksB dy).1
        = (blocksB.reverse).foldl (fun a f => f a) (lnB (lmHeadB dy)) ∧
    (transformerPlain_embArgs lmHeadB lnB blocksB dy).2
        = (transformerPlain_embArgs lmHeadB lnB blocksB dy).1 :=
  ⟨rfl, rfl, rfl⟩

/-- C7: the transformer block forward computes
`x1 = x + Dropout1(Attention(LayerNorm1(x)))` then
`x2 = x1 + Dropout2(FeedForward(LayerNorm2(x1)))`, and its backward adds,
for each of the two residual sums, the incoming gradient (identity
shortcut) to the gradient propagated through the corresponding sub-block
chain. -/
theorem c7_block_residual (α : Type) [Add α]
    (ln1F attnF drop1F ln2F ffwdF drop2F : α → α)
    (drop1B attnB ln1B drop2B ffwdB ln2B : α → α) (x dy : α) :
    TransformerBlock_forward ln1F attnF drop1F ln2F ffwdF drop2F x
      = (x + drop1F (attnF (ln1F x)))
        + drop2F (ffwdF (ln2F (x + drop1F (attnF (ln1F x))))) ∧
    TransformerBlock_backward drop1B attnB ln1B drop2B ffwdB ln2B dy
      = (dy + ln2B (ffwdB (drop2B dy)))
        + ln1B (attnB (drop1B (dy + ln2B (ffwdB (drop2B dy))))) :=
  ⟨rfl, rfl⟩

/-- Helper: one batch slice of the attention forward agrees with the spec
formula. -/
theorem mhaHeadForward_eq_spec {S D M : ℕ} (training : Bool) (q k v : RMat S D)
    (mask : Option (Fin M → Fin M → WithBot ℝ)) (hSM : S ≤ M) (p : ℚ)
    (keep : Fin S → Fin S → Bool) :
    mhaHeadForward training q k v mask hSM p keep
      = specAttention training q k v mask hSM p keep := by
  cases training with
  | false =>
    simp [mhaHeadForward, FSDPAttention_forward, specAttention, dropoutF]
  | true =>
    by_cases hp : 0 < p <;>
      simp [mhaHeadForward, FSDPAttention_forward, specAttention, dropoutF, hp]

/-- C1: for every batch of q, k, v slices and optional mask, the forward
attention output is `softmax((q @ k.T) / sqrt(head_size) + mask') @ v`,
where `mask'` is the leading sequence-by-sequence submatrix of the mask,
the mask is added before the softmax, the softmax normalizes along the key
axis, and dropout modifies the attention weights exactly when in training
mode with a positive dropout probability. -/
theorem c1_sdpa_forward {B S D M : ℕ} (training : Bool)
    (q k v : Fin B → RMat S D) (mask : Option (Fin M → Fin M → WithBot ℝ))
    (hSM : S ≤ M) (p : ℚ) (keep : Fin B → Fin S → Fin S → Bool) :
    mhaHeadForwardBatch training q k v mask hSM p keep
      = specAttentionBatch training q k v mask hSM p keep := by
  funext b
  exact mhaHeadForward_eq_spec training (q b) (k b) (v b) mask hSM p (keep b)

/-- C1 (witness): the theorem at a concrete configuration with batch 1,
sequence 1, head size 1, no mask, dropout probability 1/2, training
mode. -/
theorem c1_sdpa_forward_witness :
    mhaHeadForwardBatch (B := 1) (S := 1) (D := 1) (M := 1) true
        (fun _ _ _ => (2 : ℝ)) (fun _ _ _ => (3 : ℝ)) (fun _ _ _ => (5 : ℝ))
        none (le_refl 1) (1 / 2) (fun _ _ _ => true)
      = specAttentionBatch (B := 1) (S := 1) (D := 1) (M := 1) true
        (fun _ _ _ => (2 : ℝ)) (fun _ _ _ => (3 : ℝ)) (fun _ _ _ => (5 : ℝ))
        none (le_refl 1) (1 / 2) (fun _ _ _ => true) :=
  c1_sdpa_forward true _ _ _ none (le_refl 1) (1 / 2) _

/-- C2: the attention backward equals the spec's chain rule: multiply the
output gradient by `v.T`, undo dropout, apply the full softmax
Jacobian-vector product rescaled by `1/sqrt(head_size)`, then
`d_q = d_scores @ k`, `d_k = d_scores.T @ q`,
`d_v = attention_weights.T @ d_output` with the cached post-dropout
attention weights. -/
theorem c2_sdpa_backward {S D : ℕ} (c : AttnCache S D) (dy : RMat S D) :
    FSDPAttention_backward c dy = specAttnBackward c dy := by
  simp only [FSDPAttention_backward, specAttnBackward, Prod.mk.injEq]
  refine ⟨?_, ?_, trivial⟩ <;>
  · funext a b
    refine Finset.sum_congr rfl fun j _ => ?_
    ring

/-- C9: the sinusoidal positional-encoding table satisfies
`enc(p, 2i) = sin(p / base^(2i/E))` and `enc(p, 2i+1) = cos(p / base^(2i/E))`
for positive `base` (default 10000), the forward pass returns the leading
slice of the fixed table matching the current sequence length, and the
backward pass returns its gradient argument unchanged, sending nothing into
the table. -/
theorem c9_positional_encoding {L E : ℕ} (base : ℝ) (hbase : 0 < base)
    (p : Fin L) (i : ℕ) :
    (∀ h2 : 2 * i < E,
      peEncodings L E base p ⟨2 * i, h2⟩
        = Real.sin ((p : ℕ) / base ^ (((2 * i : ℕ) : ℝ) / (E : ℝ)))) ∧
    (∀ h2 : 2 * i + 1 < E,
      peEncodings L E base p ⟨2 * i + 1, h2⟩
        = Real.cos ((p : ℕ) / base ^ (((2 * i : ℕ) : ℝ) / (E : ℝ)))) ∧
    (∀ (Sq : ℕ) (hS : Sq ≤ L) (s : Fin Sq) (j : Fin E),
      peForward L E base Sq hS s j = peEncodings L E base (Fin.castLE hS s) j) ∧
    (∀ (A : Type) (dy : A), peBackward dy = dy) := by
  have harg : ((2 * i : ℕ) : ℝ) * (-(Real.log base / (E : ℝ)))
      = -(Real.log base * (((2 * i : ℕ) : ℝ) / (E : ℝ))) := by
    push_cast
    ring
  have hexp : peDivTerm E base i = (base ^ (((2 * i : ℕ) : ℝ) / (E : ℝ)))⁻¹ := by
    rw [peDivTerm, Real.rpow_def_of_pos hbase, ← Real.exp_neg]
    exact congrArg Real.exp harg
  refine ⟨?_, ?_, fun _ _ _ _ => rfl, fun _ _ => rfl⟩
  · intro h2
    have hmod : (2 * i) % 2 = 0 := by omega
    have hdiv : (2 * i) / 2 = i := by omega
    simp only [peEncodings, hmod, hdiv, if_true, eq_self_iff_true]
    congr 1
    rw [hexp]
    exact (div_eq_mul_inv _ _).symm
  · intro h2
    have hmod : ¬ ((2 * i + 1) % 2 = 0) := by omega
    have hdiv : (2 * i + 1) / 2 = i := by omega
    simp only [peEncodings, hmod, hdiv, if_false]
    congr 1
    rw [hexp]
    exact (div_eq_mul_inv _ _).symm

/-- C9 (witness): the theorem at `max_seq_len = 1`, `embedding_dim = 2`,
`base = 10000`, position 0, feature pair index 0. -/
theorem c9_positional_encoding_witness :
    peEncodings 1 2 10000 ⟨0, Nat.one_pos⟩ ⟨2 * 0, by norm_num⟩
      = Real.sin ((((⟨0, Nat.one_pos⟩ : Fin 1) : ℕ) : ℝ)
          / (10000 : ℝ) ^ (((2 * 0 : ℕ) : ℝ) / ((2 : ℕ) : ℝ))) :=
  (c9_positional_encoding 10000 (by norm_num) ⟨0, Nat.one_pos⟩ 0).1 (by norm_num)

/-- Helper: zipping two reversed lists of equal length is the reverse of
zipping the lists. -/
theorem zip_reverse_eq {α β : Type} :
    ∀ (xs : List α) (ys : List β), xs.length = ys.length →
      xs.reverse.zip ys.reverse = (xs.zip ys).reverse := by
  intro xs
  induction xs with
  | nil =>
    intro ys h
    cases ys with
    | nil => rfl
    | cons b ys => simp at h
  | cons a xs ih =>
    intro ys h
    cases ys with
    | nil => simp at h
    | cons b ys =>
      have hlen : xs.length = ys.length := by simpa using h
      rw [List.reverse_cons, List.reverse_cons,
        List.zip_append (by simp [hlen]), ih ys hlen]
      simp

/-- Helper: the score of a causally masked pair with the key strictly after
the query is negative infinity. -/
theorem causal_score_bot {S M : ℕ} (hSM : S ≤ M) (f : Fin S → Fin S → ℝ)
    (i j : Fin S) (hij : (i : ℕ) + 1 ≤ (j : ℕ)) :
    addMaskOpt f (some (getCausalMask M)) hSM i j = ⊥ := by
  simp [addMaskOpt, getCausalMask, hij, WithBot.add_bot]

/-- Helper: the score of a causally masked pair with the key at or before
the query is the unmasked score. -/
theorem causal_score_keep {S M : ℕ} (hSM : S ≤ M) (f : Fin S → Fin S → ℝ)
    (i j : Fin S) (hij : ¬ ((i : ℕ) + 1 ≤ (j : ℕ))) :
    addMaskOpt f (some (getCausalMask M)) hSM i j = ((f i j : ℝ) : WithBot ℝ) := by
  simp [addMaskOpt, getCausalMask, hij]

/-- C4: with the causal mask of `get_causal_mask` (negative infinity
strictly above the diagonal, zero elsewhere), two q/k/v triples agreeing at
all sequence positions at most `t` and differing only later produce
identical attention output at every position at most `t` — the output at a
position never depends on later positions (dropout probability 0, i.e. the
deterministic path; the dropout draw may even differ). -/
theorem c4_causal_no_lookahead {S D M : ℕ} (hSM : S ≤ M)
    (q k v q' k' v' : RMat S D) (t : ℕ)
    (hq : ∀ j : Fin S, (j : ℕ) ≤ t → q j = q' j)
    (hk : ∀ j : Fin S, (j : ℕ) ≤ t → k j = k' j)
    (hv : ∀ j : Fin S, (j : ℕ) ≤ t → v j = v' j)
    (keep keep' : Fin S → Fin S → Bool) :
    ∀ i : Fin S, (i : ℕ) ≤ t →
      (FSDPAttention_forward q k v (some (getCausalMask M)) hSM 0 keep).1 i
        = (FSDPAttention_forward q' k' v' (some (getCausalMask M)) hSM 0 keep').1 i := by
  intro i hi
  have hact : (decide ((0 : ℚ) < (0 : ℚ))) = false := by decide
  have hraw : ∀ j : Fin S, (j : ℕ) ≤ (i : ℕ) →
      rawScores q k i j = rawScores q' k' i j := by
    intro j hj
    simp only [rawScores]
    rw [hq i hi, hk j (le_trans hj hi)]
  have hterm : ∀ j : Fin S,
      bexp (addMaskOpt (rawScores q k) (some (getCausalMask M)) hSM i j)
        = bexp (addMaskOpt (rawScores q' k') (some (getCausalMask M)) hSM i j) := by
    intro j
    by_cases hij : (i : ℕ) + 1 ≤ (j : ℕ)
    · rw [causal_score_bot hSM _ i j hij, causal_score_bot hSM _ i j hij]
    · rw [causal_score_keep hSM _ i j hij, causal_score_keep hSM _ i j hij,
        hraw j (by omega)]
  have hden :
      (∑ j', bexp (addMaskOpt (rawScores q k) (some (getCausalMask M)) hSM i j'))
        = ∑ j', bexp (addMaskOpt (rawScores q' k') (some (getCausalMask M)) hSM i j') :=
    Finset.sum_congr rfl fun j' _ => hterm j'
  funext d
  simp only [FSDPAttention_forward, dropoutF, hact, Bool.false_eq_true, if_false,
    matmulWV, softmaxKeyAxis]
  refine Finset.sum_congr rfl fun j _ => ?_
  by_cases hij : (i : ℕ) + 1 ≤ (j : ℕ)
  · rw [causal_score_bot hSM _ i j hij, causal_score_bot hSM _ i j hij]
    simp
  · rw [hterm j, hden, hv j (by omega)]

/-- C4 (witness): the theorem at sequence length 2, head size 1, mask shape
2 by 2, `t = 0`, with the primed inputs differing at position 1 and a
different dropout draw. -/
theorem c4_causal_no_lookahead_witness :
    (FSDPAttention_forward (S := 2) (D := 1) (M := 2)
        (fun _ _ => 0) (fun _ _ => 0) (fun _ _ => 0)
        (some (getCausalMask 2)) (le_refl 2) 0 (fun _ _ => true)).1 ⟨0, by norm_num⟩
      = (FSDPAttention_forward
        (fun i _ => if (i : ℕ) = 0 then 0 else 1)
        (fun i _ => if (i : ℕ) = 0 then 0 else 1)
        (fun i _ => if (i : ℕ) = 0 then 0 else 1)
        (some (getCausalMask 2)) (le_refl 2) 0 (fun _ _ => false)).1 ⟨0, by norm_num⟩ :=
  c4_causal_no_lookahead (le_refl 2) _ _ _ _ _ _ 0
    (fun j hj => by
      funext d
      have h0 : (j : ℕ) = 0 := Nat.le_zero.mp hj
      simp [h0])
    (fun j hj => by
      funext d
      have h0 : (j : ℕ) = 0 := Nat.le_zero.mp hj
      simp [h0])
    (fun j hj => by
      funext d
      have h0 : (j : ℕ) = 0 := Nat.le_zero.mp hj
      simp [h0])
    (fun _ _ => true) (fun _ _ => false) ⟨0, by norm_num⟩ (Nat.le_refl 0)

/-- C3: the s-variant multi-head attention backward — output-projection
backward, split into `n_heads` chunks, cache stack consumed last-in
first-out against the reversed chunk order, per-head q/k/v gradients
re-concatenated in original head order, and the three input-projection
backward results summed — computes exactly the mirror where head `i`'s
cached backward is applied to chunk `i` and everything stays in original
head order. -/
theorem c3_mha_backward {S C : ℕ} (H hd : ℕ)
    (outB : RMat S C → RMat S (H * hd)) (qB kB vB : RMat S (H * hd) → RMat S C)
    (caches : List (AttnCache S hd)) (dy : RMat S C)
    (hlen : caches.length = H) :
    MultiHeadAttention_backward H hd outB qB kB vB caches dy
      = MultiHeadAttention_backward_spec H hd outB qB kB vB caches dy := by
  have hch : (splitHeads H hd (outB dy)).length = caches.length := by
    simp [splitHeads, hlen]
  have hz : (splitHeads H hd (outB dy)).reverse.zip caches.reverse
      = ((splitHeads H hd (outB dy)).zip caches).reverse :=
    zip_reverse_eq _ _ hch
  simp only [MultiHeadAttention_backward, MultiHeadAttention_backward_spec, hz,
    List.map_reverse, List.reverse_reverse]

/-- C3 (witness): the theorem at one head of size 1, identity projections,
one cached forward. -/
theorem c3_mha_backward_witness :
    MultiHeadAttention_backward (S := 1) (C := 1) 1 1
        (fun x => x) (fun x => x) (fun x => x) (fun x => x)
        [sampleAttnCache] (fun _ _ => 1)
      = MultiHeadAttention_backward_spec 1 1
        (fun x => x) (fun x => x) (fun x => x) (fun x => x)
        [sampleAttnCache] (fun _ _ => 1) :=
  c3_mha_backward 1 1 _ _ _ _ [sampleAttnCache] _ rfl

end CompyuteTransformer
